import Mathlib

/-!
Shallow embedding of the rfinance portfolio tracker (src/data.rs and
src/finance.rs).

Modelling conventions:
* Rust `f64` values are modelled as exact rationals `ℚ`.  The single place
  where IEEE non-finiteness matters to the specification (`gain_perc` when
  `invested_value = 0`) is captured by the extended-value type `Fp`, which
  tags the result of the unguarded division `gain / invested_value * 100`
  as finite, `+∞`, `-∞` or NaN exactly as IEEE-754 division by zero does.
* Rust `u32` quantities are `Nat`; the `+` of `impl Add for Performance`
  is modelled with an explicit wrap `% 2^32`.
* `chrono::NaiveDate` is opaque to every claim; it is modelled as `Int`
  (a day number).
* `HashMap<String, Asset>` is modelled as an association list
  `List (String × Asset)` whose iteration order is the list order
  (the source leaves the map iteration order unspecified).
* `anyhow::Result` is modelled by `Except Err`; the error constructors
  correspond to the source's error messages: `keyNotSet` = "key not set",
  `notFound` = "Symbol not found", `outOfRange` = "Index out of bounds",
  `priceUnavailable` = "Unable to fetch latest price", `fetchFailed` = a
  propagated network error of the external connector.
* The external `financeapi` connector is an abstract field holding the
  behaviour of the remote service; fallible calls that reach the network
  are instrumented with a call counter (`× Nat`) so that "without
  attempting any external call" and "fetches the price exactly once" are
  statable.
* `Data.data_file` (a non-persisted `PathBuf` handle) and the filesystem
  mechanics of `save`/`load` are external; persistence is modelled by
  `Store`, a pair of the in-memory `Data` and the last persisted snapshot,
  where `save` copies memory to disk.
-/

namespace RFinance

/-- Extended value of an IEEE double: finite (an exact rational), positive
infinity, negative infinity, or NaN. -/
inductive Fp where
  | finite (q : ℚ)
  | posInf
  | negInf
  | nan
deriving DecidableEq, Repr

/-- Whether an extended value is finite. -/
def Fp.isFinite : Fp → Bool
  | .finite _ => true
  | _ => false

/-- The expression `gain / invested_value * 100f64` from data.rs lines 25
and 44, with IEEE-754 semantics for the division by zero: `0/0` is NaN and
`x/0` is `±∞` for `x ≠ 0`; multiplying by 100 preserves the class. -/
def gainPerc (gain invested : ℚ) : Fp :=
  if invested = 0 then
    if gain = 0 then .nan
    else if 0 < gain then .posInf
    else .negInf
  else .finite (gain / invested * 100)

/-- data.rs `struct Performance` (lines 11-18). -/
structure Performance where
  invested_value : ℚ
  latest_value : ℚ
  gain : ℚ
  gain_perc : Fp
  quantity : Nat
deriving DecidableEq, Repr

/-- Rust `Performance::default()`: every numeric field zero. -/
def Performance.default : Performance :=
  { invested_value := 0, latest_value := 0, gain := 0,
    gain_perc := .finite 0, quantity := 0 }

/-- Modulus of Rust `u32` arithmetic. -/
def U32_MOD : Nat := 2 ^ 32

/-- data.rs `Performance::new` (lines 21-34). -/
def Performance.new (quantity : Nat) (buying_price current_price : ℚ) :
    Performance :=
  let invested_value := (quantity : ℚ) * buying_price
  let latest_value := (quantity : ℚ) * current_price
  let gain := latest_value - invested_value
  { invested_value, latest_value, gain,
    gain_perc := gainPerc gain invested_value, quantity }

/-- data.rs `impl Add for Performance` (lines 37-55): component sums with
`gain` and `gain_perc` recomputed from the summed totals; the `u32`
quantity sum wraps. -/
def Performance.add (a rhs : Performance) : Performance :=
  let invested_value := a.invested_value + rhs.invested_value
  let latest_value := a.latest_value + rhs.latest_value
  let gain := latest_value - invested_value
  { invested_value, latest_value, gain,
    gain_perc := gainPerc gain invested_value,
    quantity := (a.quantity + rhs.quantity) % U32_MOD }

/-- data.rs `struct AssetOp` (lines 57-63): one recorded purchase. -/
structure AssetOp where
  symbol : String
  quantity : Nat
  price : ℚ
  date : Int
deriving DecidableEq, Repr

/-- data.rs `struct Asset` (lines 65-69). -/
structure Asset where
  symbol : String
  op : List AssetOp
deriving DecidableEq, Repr

/-- Rust `Asset::default()`. -/
def Asset.default : Asset := { symbol := "", op := [] }

/-- data.rs `struct Portfolio` (lines 71-74); the `HashMap` is an
association list. -/
structure Portfolio where
  asset : List (String × Asset)
deriving DecidableEq, Repr

/-- Error taxonomy of the embedded fallible operations (see the module
comment for the mapping to the source's error messages). -/
inductive Err where
  | keyNotSet
  | notFound
  | outOfRange
  | priceUnavailable
  | fetchFailed
deriving DecidableEq, Repr

/-- The only field of `FinanceapiQuote` the core reads. -/
structure FinanceapiQuote where
  regular_market_price : Option ℚ
deriving DecidableEq, Repr

/-- The external `financeapi` service: abstract behaviour of the remote
quote and autocomplete endpoints (symbols found by autocomplete are kept
abstract as strings). -/
structure FinanceapiConnector where
  quote : String → Except Err FinanceapiQuote
  autocomplete : String → Except Err (List String)

/-- finance.rs `struct FinanceProvider` (lines 4-8). -/
structure FinanceProvider where
  connector : FinanceapiConnector
  key : Option String

/-- finance.rs `FinanceProvider::check_key` (lines 11-17). -/
def FinanceProvider.check_key (f : FinanceProvider) : Except Err Unit :=
  if f.key.isNone then .error .keyNotSet else .ok ()

/-- finance.rs `FinanceProvider::new` (lines 19-28): an empty key string
yields the default provider with `key = None`.  The external service
behaviour `service` stands for the connector (the default connector of the
empty-key branch is never consulted, since every call checks the key
first). -/
def FinanceProvider.new (service : FinanceapiConnector) (key : String) :
    FinanceProvider :=
  if key.isEmpty then { connector := service, key := none }
  else { connector := service, key := some key }

/-- finance.rs `FinanceProvider::search` (lines 30-38), instrumented with
the number of external calls attempted. -/
def FinanceProvider.search (f : FinanceProvider) (symbol : String) :
    Except Err (List String) × Nat :=
  match f.check_key with
  | .error e => (.error e, 0)
  | .ok _ => (f.connector.autocomplete symbol, 1)

/-- finance.rs `FinanceProvider::get_quote` (lines 40-48), instrumented
with the number of external calls attempted. -/
def FinanceProvider.get_quote (f : FinanceProvider) (symbol : String) :
    Except Err FinanceapiQuote × Nat :=
  match f.check_key with
  | .error e => (.error e, 0)
  | .ok _ => (f.connector.quote symbol, 1)

/-- finance.rs `FinanceProvider::get_latest_price` (lines 50-56),
instrumented with the number of external calls attempted. -/
def FinanceProvider.get_latest_price (f : FinanceProvider)
    (symbol : String) : Except Err ℚ × Nat :=
  match f.check_key with
  | .error e => (.error e, 0)
  | .ok _ =>
    match f.get_quote symbol with
    | (.error e, n) => (.error e, n)
    | (.ok q, n) =>
      match q.regular_market_price with
      | none => (.error .priceUnavailable, n)
      | some p => (.ok p, n)

/-- data.rs `AssetOp::performance` (lines 85-98), instrumented with the
number of external calls attempted. -/
def AssetOp.performance (x : AssetOp) (finance : FinanceProvider)
    (current_price : Option ℚ) : Except Err Performance × Nat :=
  match current_price with
  | none =>
    match finance.get_latest_price x.symbol with
    | (.error e, n) => (.error e, n)
    | (.ok p, n) => (.ok (Performance.new x.quantity x.price p), n)
  | some p => (.ok (Performance.new x.quantity x.price p), 0)

/-- The `try_fold` of data.rs `Asset::performance` (lines 104-107):
combines each transaction's performance at the shared price into the
accumulator, stopping at the first error; external calls are counted. -/
def tryFoldPerf (finance : FinanceProvider) (latest : ℚ)
    (acc : Performance) : List AssetOp → Except Err Performance × Nat
  | [] => (.ok acc, 0)
  | x :: xs =>
    match x.performance finance (some latest) with
    | (.error e, n) => (.error e, n)
    | (.ok p, n) =>
      match tryFoldPerf finance latest (acc.add p) xs with
      | (r, m) => (r, n + m)

/-- data.rs `Asset::performance` (lines 100-109): fetch the latest price
for the asset's symbol, then fold every transaction's performance at that
price. -/
def Asset.performance (a : Asset) (finance : FinanceProvider) :
    Except Err Performance × Nat :=
  match finance.get_latest_price a.symbol with
  | (.error e, n) => (.error e, n)
  | (.ok latest, n) =>
    match tryFoldPerf finance latest Performance.default a.op with
    | (r, m) => (r, n + m)

/-- The `try_fold` of data.rs `Portfolio::performance` (lines 113-118):
combines each asset's performance into the accumulator, stopping at the
first error; external calls are counted. -/
def tryFoldAssets (finance : FinanceProvider) (acc : Performance) :
    List Asset → Except Err Performance × Nat
  | [] => (.ok acc, 0)
  | a :: rest =>
    match a.performance finance with
    | (.error e, n) => (.error e, n)
    | (.ok p, n) =>
      match tryFoldAssets finance (acc.add p) rest with
      | (r, m) => (r, n + m)

/-- data.rs `Portfolio::performance` (lines 111-120): fold over the map's
values. -/
def Portfolio.performance (p : Portfolio) (finance : FinanceProvider) :
    Except Err Performance × Nat :=
  tryFoldAssets finance Performance.default (p.asset.map Prod.snd)

/-- data.rs `struct Data` (lines 76-83) without the non-persisted
`data_file` handle, which no claim observes. -/
structure Data where
  api_key : String
  portfolio : Portfolio
deriving DecidableEq, Repr

/-- Lookup of the map entry for a key (first match in the association
list; keys are unique by `HashMap` construction). -/
def lookupAsset : List (String × Asset) → String → Option Asset
  | [], _ => none
  | (k, a) :: rest, sym => if k = sym then some a else lookupAsset rest sym

/-- The `entry(symbol).or_default()` discipline of data.rs `Data::add`
followed by an in-place mutation `f`: modify the existing entry, or append
a fresh default entry mutated by `f`. -/
def updateAsset (m : List (String × Asset)) (sym : String)
    (f : Asset → Asset) : List (String × Asset) :=
  match m with
  | [] => [(sym, f Asset.default)]
  | (k, a) :: rest =>
    if k = sym then (k, f a) :: rest else (k, a) :: updateAsset rest sym f

/-- `HashMap::remove` of the entry for a key. -/
def eraseAsset (m : List (String × Asset)) (sym : String) :
    List (String × Asset) :=
  match m with
  | [] => []
  | (k, a) :: rest =>
    if k = sym then rest else (k, a) :: eraseAsset rest sym

/-- data.rs `Data::add` (lines 159-177): create the asset entry if absent,
push the new transaction, set the asset's symbol.  (The trailing `save` is
modelled at the `Store` level.) -/
def Data.add (d : Data) (symbol : String) (quantity : Nat) (price : ℚ)
    (date : Int) : Data :=
  { d with portfolio := ⟨updateAsset d.portfolio.asset symbol (fun a =>
      { a with op := a.op ++ [{ symbol, quantity, price, date }],
               symbol := symbol })⟩ }

/-- data.rs `Data::delete` (lines 179-204).  Without an index the whole
asset entry is removed (`NotFound` when absent); with an index the 1-based
transaction at that position is removed (`NotFound` when the symbol is
absent, `OutOfRange` when the index is 0 or exceeds the transaction
count).  (The trailing `save` is modelled at the `Store` level.) -/
def Data.delete (d : Data) (symbol : String) (index : Option Nat) :
    Except Err Data :=
  match index with
  | none =>
    match lookupAsset d.portfolio.asset symbol with
    | none => .error .notFound
    | some _ =>
      .ok { d with portfolio := ⟨eraseAsset d.portfolio.asset symbol⟩ }
  | some index =>
    match lookupAsset d.portfolio.asset symbol with
    | none => .error .notFound
    | some a =>
      if index = 0 ∨ a.op.length < index then .error .outOfRange
      else
        .ok { d with portfolio := ⟨updateAsset d.portfolio.asset symbol
          (fun a => { a with op := a.op.eraseIdx (index - 1) })⟩ }

/-- Persistence model: the in-memory `Data` plus the last snapshot written
by `Data::save` to the backing file. -/
structure Store where
  mem : Data
  disk : Data
deriving DecidableEq, Repr

/-- `Data::add` followed by its `save()`: the mutated state is persisted.
-/
def Store.addOp (s : Store) (symbol : String) (quantity : Nat) (price : ℚ)
    (date : Int) : Store :=
  let d := s.mem.add symbol quantity price date
  { mem := d, disk := d }

/-- `Data::delete` followed by its `save()`: on success the mutated state
is persisted; on failure the function returns before mutating or saving,
so both memory and disk are unchanged. -/
def Store.deleteOp (s : Store) (symbol : String) (index : Option Nat) :
    Store × Option Err :=
  match s.mem.delete symbol index with
  | .ok d => ({ mem := d, disk := d }, none)
  | .error e => (s, some e)

/-- The transaction list currently recorded for a symbol (empty when the
symbol has no asset). -/
def Data.opsOf (d : Data) (symbol : String) : List AssetOp :=
  match lookupAsset d.portfolio.asset symbol with
  | none => []
  | some a => a.op

/-- Whether a fallible result succeeded. -/
def exceptOk {α : Type} : Except Err α → Bool
  | .ok _ => true
  | .error _ => false

instance {ε α : Type} [DecidableEq ε] [DecidableEq α] :
    DecidableEq (Except ε α) := fun a b =>
  match a, b with
  | .ok x, .ok y =>
    if h : x = y then .isTrue (by rw [h]) else
      .isFalse (by intro hc; cases hc; exact h rfl)
  | .error x, .error y =>
    if h : x = y then .isTrue (by rw [h]) else
      .isFalse (by intro hc; cases hc; exact h rfl)
  | .ok _, .error _ => .isFalse (by intro hc; cases hc)
  | .error _, .ok _ => .isFalse (by intro hc; cases hc)

/-- The performance value an asset yields when its computation succeeds
(`Performance.default` in the error case, which callers never use). -/
def assetPerfVal (finance : FinanceProvider) (a : Asset) : Performance :=
  match (a.performance finance).1 with
  | .ok p => p
  | .error _ => Performance.default

/-- Concrete fixture: first AAPL purchase of the spec's worked example. -/
def opA1 : AssetOp := { symbol := "AAPL", quantity := 10, price := 150, date := 0 }

/-- Concrete fixture: second AAPL purchase of the spec's worked example. -/
def opA2 : AssetOp := { symbol := "AAPL", quantity := 5, price := 180, date := 1 }

/-- Concrete fixture: AAPL asset with two transactions. -/
def assetA : Asset := { symbol := "AAPL", op := [opA1, opA2] }

/-- Concrete fixture: one MSFT purchase. -/
def opM1 : AssetOp := { symbol := "MSFT", quantity := 3, price := 100, date := 2 }

/-- Concrete fixture: MSFT asset with one transaction. -/
def assetM : Asset := { symbol := "MSFT", op := [opM1] }

/-- Concrete fixture: an asset with no transactions. -/
def assetEmpty : Asset := { symbol := "NVDA", op := [] }

/-- Concrete fixture: an external service that quotes every symbol at
200. -/
def connA : FinanceapiConnector :=
  { quote := fun _ => .ok { regular_market_price := some 200 },
    autocomplete := fun _ => .ok [] }

/-- Concrete fixture: a provider with a configured key over `connA`. -/
def provA : FinanceProvider := FinanceProvider.new connA "k"

/-- Concrete fixture: a two-asset ledger state. -/
def dataA : Data :=
  { api_key := "k", portfolio := ⟨[("AAPL", assetA), ("MSFT", assetM)]⟩ }

/-- Concrete fixture: a store whose memory and disk both hold `dataA`. -/
def storeA : Store := { mem := dataA, disk := dataA }

/-- Concrete fixture: a two-asset portfolio. -/
def portA : Portfolio := ⟨[("AAPL", assetA), ("MSFT", assetM)]⟩

/-- Concrete fixture: `portA` with the two map entries in the opposite
iteration order. -/
def portB : Portfolio := ⟨[("MSFT", assetM), ("AAPL", assetA)]⟩

/- ------------------------------------------------------------------ -/
/- Helper lemmas about the Performance algebra.                        -/
/- ------------------------------------------------------------------ -/

theorem Performance.add_invested (a b : Performance) :
    (a.add b).invested_value = a.invested_value + b.invested_value := rfl

theorem Performance.add_latest (a b : Performance) :
    (a.add b).latest_value = a.latest_value + b.latest_value := rfl

theorem Performance.add_quantity (a b : Performance) :
    (a.add b).quantity = (a.quantity + b.quantity) % U32_MOD := rfl

theorem Performance.add_gain (a b : Performance) :
    (a.add b).gain =
      (a.latest_value + b.latest_value) -
        (a.invested_value + b.invested_value) := rfl

theorem Performance.add_gain_perc (a b : Performance) :
    (a.add b).gain_perc =
      gainPerc
        ((a.latest_value + b.latest_value) -
          (a.invested_value + b.invested_value))
        (a.invested_value + b.invested_value) := rfl

theorem Performance.add_comm (a b : Performance) : a.add b = b.add a := by
  simp only [Performance.add, Performance.mk.injEq]
  refine ⟨by ring, by ring, by ring, ?_, by rw [Nat.add_comm]⟩
  congr 1 <;> ring

theorem Performance.add_assoc (a b c : Performance) :
    (a.add b).add c = a.add (b.add c) := by
  simp only [Performance.add, Performance.mk.injEq]
  refine ⟨by ring, by ring, by ring, ?_, ?_⟩
  · congr 1 <;> ring
  · simp only [U32_MOD]
    omega

theorem Performance.add_right_comm (b x y : Performance) :
    (b.add x).add y = (b.add y).add x := by
  rw [Performance.add_assoc, Performance.add_assoc,
    Performance.add_comm x y]

theorem gainPerc_zero_invested (g : ℚ) : (gainPerc g 0).isFinite = false := by
  unfold gainPerc
  split_ifs <;> simp_all [Fp.isFinite]

/- ------------------------------------------------------------------ -/
/- Helper lemmas about the instrumented price lookups and folds.       -/
/- ------------------------------------------------------------------ -/

theorem get_latest_price_ok {f : FinanceProvider} {s : String} {p : ℚ}
    (h : (f.get_latest_price s).1 = .ok p) :
    f.get_latest_price s = (.ok p, 1) := by
  unfold FinanceProvider.get_latest_price FinanceProvider.get_quote at h ⊢
  cases hk : f.check_key with
  | error e => simp [hk] at h
  | ok u =>
    simp only [hk] at h ⊢
    cases hq : f.connector.quote s with
    | error e => simp [hq] at h
    | ok q =>
      simp only [hq] at h ⊢
      cases hm : q.regular_market_price with
      | none => simp [hm] at h
      | some p2 =>
        simp only [hm] at h ⊢
        simp at h
        rw [h]

theorem tryFoldPerf_eq (f : FinanceProvider) (latest : ℚ) (acc : Performance)
    (ops : List AssetOp) :
    tryFoldPerf f latest acc ops =
      (.ok (ops.foldl
        (fun acc x => acc.add (Performance.new x.quantity x.price latest))
        acc), 0) := by
  induction ops generalizing acc with
  | nil => rfl
  | cons x xs ih => simp [tryFoldPerf, AssetOp.performance, ih]

theorem Asset.performance_ok {f : FinanceProvider} {a : Asset} {p : ℚ}
    (h : (f.get_latest_price a.symbol).1 = .ok p) :
    a.performance f =
      (.ok (a.op.foldl
        (fun acc x => acc.add (Performance.new x.quantity x.price p))
        Performance.default), 1) := by
  unfold Asset.performance
  rw [get_latest_price_ok h]
  simp [tryFoldPerf_eq]

theorem Asset.performance_count {f : FinanceProvider} {a : Asset}
    {p : Performance} (h : (a.performance f).1 = .ok p) :
    a.performance f = (.ok p, 1) := by
  have hg : ∃ q, (f.get_latest_price a.symbol).1 = .ok q := by
    unfold Asset.performance at h
    cases hg : f.get_latest_price a.symbol with
    | mk r n =>
      cases r with
      | error e => rw [hg] at h; simp at h
      | ok latest => exact ⟨latest, by simp [hg]⟩
  obtain ⟨q, hq⟩ := hg
  have hperf := Asset.performance_ok (a := a) hq
  rw [hperf] at h
  simp at h
  rw [hperf, h]

theorem tryFoldAssets_ok {f : FinanceProvider} {l : List Asset}
    (h : ∀ a ∈ l, exceptOk (a.performance f).1 = true) (acc : Performance) :
    tryFoldAssets f acc l =
      (.ok (l.foldl (fun acc a => acc.add (assetPerfVal f a)) acc),
       l.length) := by
  induction l generalizing acc with
  | nil => rfl
  | cons a rest ih =>
    have ha := h a (List.mem_cons_self a rest)
    obtain ⟨p, hp⟩ : ∃ p, (a.performance f).1 = .ok p := by
      cases hx : (a.performance f).1 with
      | error e => rw [hx] at ha; simp [exceptOk] at ha
      | ok p => exact ⟨p, rfl⟩
    have hcount := Asset.performance_count hp
    have hval : assetPerfVal f a = p := by unfold assetPerfVal; rw [hp]
    simp only [tryFoldAssets, hcount, List.foldl_cons, hval]
    rw [ih (fun a2 ha2 => h a2 (List.mem_cons_of_mem a ha2))]
    simp [Nat.add_comm]

theorem foldl_perm_of_right_comm {α β : Type} {f : β → α → β}
    (hf : ∀ b x y, f (f b x) y = f (f b y) x) {l₁ l₂ : List α}
    (h : l₁.Perm l₂) : ∀ b, l₁.foldl f b = l₂.foldl f b := by
  induction h with
  | nil => intro b; rfl
  | cons x _ ih => intro b; simp only [List.foldl_cons]; exact ih _
  | swap x y l => intro b; simp only [List.foldl_cons]; rw [hf]
  | trans _ _ ih₁ ih₂ => intro b; exact (ih₁ b).trans (ih₂ b)

theorem portfolio_perm_performance {f : FinanceProvider} {p₁ p₂ : Portfolio}
    (hperm : (p₁.asset.map Prod.snd).Perm (p₂.asset.map Prod.snd))
    (hok : ∀ a ∈ p₁.asset.map Prod.snd,
      exceptOk (a.performance f).1 = true) :
    p₁.performance f = p₂.performance f := by
  have hok₂ : ∀ a ∈ p₂.asset.map Prod.snd,
      exceptOk (a.performance f).1 = true :=
    fun a ha => hok a (hperm.mem_iff.mpr ha)
  unfold Portfolio.performance
  rw [tryFoldAssets_ok hok Performance.default,
    tryFoldAssets_ok hok₂ Performance.default]
  have hfold := foldl_perm_of_right_comm
    (f := fun acc a => acc.add (assetPerfVal f a))
    (fun b x y =>
      Performance.add_right_comm b (assetPerfVal f x) (assetPerfVal f y))
    hperm Performance.default
  rw [hfold, hperm.length_eq]

/- ------------------------------------------------------------------ -/
/- Helper lemmas about the association-list map operations.            -/
/- ------------------------------------------------------------------ -/

theorem lookupAsset_updateAsset_self (m : List (String × Asset))
    (sym : String) (f : Asset → Asset) :
    lookupAsset (updateAsset m sym f) sym =
      some (f ((lookupAsset m sym).getD Asset.default)) := by
  induction m with
  | nil => simp [updateAsset, lookupAsset]
  | cons e rest ih =>
    obtain ⟨k, a⟩ := e
    by_cases hk : k = sym
    · subst hk
      simp [updateAsset, lookupAsset]
    · simp [updateAsset, lookupAsset, hk, ih]

theorem lookupAsset_updateAsset_ne {m : List (String × Asset)}
    {sym k : String} (f : Asset → Asset) (h : k ≠ sym) :
    lookupAsset (updateAsset m sym f) k = lookupAsset m k := by
  induction m with
  | nil => simp [updateAsset, lookupAsset, Ne.symm h]
  | cons e rest ih =>
    obtain ⟨k2, a⟩ := e
    by_cases hk : k2 = sym
    · subst hk
      have hne : k2 ≠ k := Ne.symm h
      simp [updateAsset, lookupAsset, hne]
    · by_cases hk2 : k2 = k
      · subst hk2
        simp [updateAsset, lookupAsset, hk]
      · simp [updateAsset, lookupAsset, hk, hk2, ih]

theorem lookupAsset_eraseAsset_ne {m : List (String × Asset)}
    {sym k : String} (h : k ≠ sym) :
    lookupAsset (eraseAsset m sym) k = lookupAsset m k := by
  induction m with
  | nil => rfl
  | cons e rest ih =>
    obtain ⟨k2, a⟩ := e
    by_cases hk : k2 = sym
    · subst hk
      have hne : k2 ≠ k := Ne.symm h
      simp [eraseAsset, lookupAsset, hne]
    · by_cases hk2 : k2 = k
      · subst hk2
        simp [eraseAsset, lookupAsset, hk]
      · simp [eraseAsset, lookupAsset, hk, hk2, ih]

theorem lookupAsset_eq_none {m : List (String × Asset)} {sym : String}
    (h : sym ∉ m.map Prod.fst) : lookupAsset m sym = none := by
  induction m with
  | nil => rfl
  | cons e rest ih =>
    obtain ⟨k, a⟩ := e
    simp only [List.map_cons, List.mem_cons, not_or] at h
    have hne : k ≠ sym := fun hh => h.1 hh.symm
    simp [lookupAsset, hne, ih h.2]

theorem lookupAsset_eraseAsset_self {m : List (String × Asset)}
    {sym : String} (hnd : (m.map Prod.fst).Nodup) :
    lookupAsset (eraseAsset m sym) sym = none := by
  induction m with
  | nil => rfl
  | cons e rest ih =>
    obtain ⟨k, a⟩ := e
    simp only [List.map_cons, List.nodup_cons] at hnd
    by_cases hk : k = sym
    · subst hk
      simp only [eraseAsset, if_pos rfl]
      exact lookupAsset_eq_none hnd.1
    · simp [eraseAsset, hk, lookupAsset, ih hnd.2]

theorem eraseIdx_append_last {α : Type} (l : List α) (x : α) :
    (l ++ [x]).eraseIdx l.length = l := by
  induction l with
  | nil => rfl
  | cons a t ih => simp [List.eraseIdx, ih]

/- ------------------------------------------------------------------ -/
/- Claim theorems.                                                     -/
/- ------------------------------------------------------------------ -/

/-- C1: the `Performance` combine of `impl Add` is commutative and
associative in `invested_value`, `latest_value` and `quantity`; its
`gain` and `gain_perc` are recomputed from the summed totals; and
`Portfolio::performance` is independent of the iteration order over the
assets (whenever every asset's performance succeeds). -/
theorem c1_combine_comm_assoc_order_independent (f : FinanceProvider) :
    (∀ a b c : Performance,
      ((a.add b).add c).invested_value = (a.add (b.add c)).invested_value ∧
      ((a.add b).add c).latest_value = (a.add (b.add c)).latest_value ∧
      ((a.add b).add c).quantity = (a.add (b.add c)).quantity) ∧
    (∀ a b : Performance,
      (a.add b).invested_value = (b.add a).invested_value ∧
      (a.add b).latest_value = (b.add a).latest_value ∧
      (a.add b).quantity = (b.add a).quantity) ∧
    (∀ a b : Performance,
      (a.add b).gain = (a.add b).latest_value - (a.add b).invested_value ∧
      (a.add b).gain_perc =
        gainPerc ((a.add b).latest_value - (a.add b).invested_value)
          ((a.add b).invested_value)) ∧
    (∀ p₁ p₂ : Portfolio,
      (p₁.asset.map Prod.snd).Perm (p₂.asset.map Prod.snd) →
      (∀ a ∈ p₁.asset.map Prod.snd, exceptOk (a.performance f).1 = true) →
      p₁.performance f = p₂.performance f) := by
  refine ⟨fun a b c => ?_, fun a b => ?_, fun a b => ⟨rfl, rfl⟩,
    fun p₁ p₂ hperm hok => portfolio_perm_performance hperm hok⟩
  · refine ⟨?_, ?_, ?_⟩ <;> rw [Performance.add_assoc]
  · refine ⟨?_, ?_, ?_⟩ <;> rw [Performance.add_comm]

/-- C1 witness: a concrete two-asset portfolio evaluated in both
iteration orders gives the same result. -/
theorem c1_witness : portA.performance provA = portB.performance provA := by
  have hA : (provA.get_latest_price assetA.symbol).1 = .ok 200 := rfl
  have hM : (provA.get_latest_price assetM.symbol).1 = .ok 200 := rfl
  refine (c1_combine_comm_assoc_order_independent provA).2.2.2 portA portB
    (by decide) ?_
  intro a ha
  simp only [portA, List.map_cons, List.map_nil, List.mem_cons,
    List.not_mem_nil, or_false] at ha
  rcases ha with h | h <;> subst h
  · rw [Asset.performance_ok hA]
    rfl
  · rw [Asset.performance_ok hM]
    rfl

/-- C2: `Performance::new` computes exactly the spec's formulas, and the
worked example (10 at 150 plus 5 at 180, current price 200) combines to
invested 2400, latest 3000, gain 600, gain percentage 25, quantity 15. -/
theorem c2_new_formulas_and_example :
    (∀ (q : Nat) (b c : ℚ),
      (Performance.new q b c).invested_value = (q : ℚ) * b ∧
      (Performance.new q b c).latest_value = (q : ℚ) * c ∧
      (Performance.new q b c).gain =
        (Performance.new q b c).latest_value -
          (Performance.new q b c).invested_value ∧
      (Performance.new q b c).quantity = q ∧
      ((q : ℚ) * b ≠ 0 →
        (Performance.new q b c).gain_perc =
          .finite (((q : ℚ) * c - (q : ℚ) * b) / ((q : ℚ) * b) * 100))) ∧
    assetA.performance provA =
      (.ok { invested_value := 2400, latest_value := 3000, gain := 600,
             gain_perc := .finite 25, quantity := 15 }, 1) := by
  constructor
  · intro q b c
    refine ⟨rfl, rfl, rfl, rfl, fun h => ?_⟩
    show gainPerc ((q : ℚ) * c - (q : ℚ) * b) ((q : ℚ) * b) = _
    unfold gainPerc
    rw [if_neg h]
  · have hA : (provA.get_latest_price assetA.symbol).1 = .ok 200 := rfl
    rw [Asset.performance_ok hA]
    simp only [assetA, opA1, opA2, List.foldl_cons, List.foldl_nil,
      Performance.new, Performance.add, Performance.default, gainPerc,
      U32_MOD, Prod.mk.injEq, Except.ok.injEq, Performance.mk.injEq]
    norm_num

/-- C2 witness: the gain-percentage formula evaluated at quantity 10,
buying price 150, current price 200. -/
theorem c2_witness :
    (Performance.new 10 150 200).gain_perc =
      .finite (((10 : ℚ) * 200 - (10 : ℚ) * 150) / ((10 : ℚ) * 150) * 100) :=
  (c2_new_formulas_and_example.1 10 150 200).2.2.2.2 (by norm_num)

/-- C3: every `Performance` built by `Performance::new` or by the `Add`
combine satisfies `gain = latest_value - invested_value` exactly. -/
theorem c3_gain_invariant :
    (∀ (q : Nat) (b c : ℚ),
      (Performance.new q b c).gain =
        (Performance.new q b c).latest_value -
          (Performance.new q b c).invested_value) ∧
    (∀ a b : Performance,
      (a.add b).gain =
        (a.add b).latest_value - (a.add b).invested_value) :=
  ⟨fun _ _ _ => rfl, fun _ _ => rfl⟩

/-- C4: when the price lookup for the asset's symbol succeeds with `p`,
`Asset::performance` attempts exactly one external call and equals the
fold-combine (from the default `Performance`) of each transaction's
individual performance at that single price; an asset with no
transactions yields the default `Performance` (whose invested value is
0). -/
theorem c4_asset_single_fetch (f : FinanceProvider) (a : Asset) (p : ℚ)
    (h : (f.get_latest_price a.symbol).1 = .ok p) :
    a.performance f =
      (.ok (a.op.foldl
        (fun acc x => acc.add (Performance.new x.quantity x.price p))
        Performance.default), 1) ∧
    (a.op = [] → a.performance f = (.ok Performance.default, 1)) ∧
    Performance.default.invested_value = 0 := by
  have h1 := Asset.performance_ok h
  refine ⟨h1, fun he => ?_, rfl⟩
  rw [h1, he]
  rfl

/-- C4 witness: the concrete AAPL asset (price 200) and an empty asset. -/
theorem c4_witness :
    assetA.performance provA =
      (.ok (assetA.op.foldl
        (fun acc x => acc.add (Performance.new x.quantity x.price 200))
        Performance.default), 1) ∧
    assetEmpty.performance provA = (.ok Performance.default, 1) :=
  ⟨(c4_asset_single_fetch provA assetA 200 rfl).1,
   (c4_asset_single_fetch provA assetEmpty 200 rfl).2.1 rfl⟩

/-- C5: `Data::delete` with an index treats it as 1-based into the
asset's transaction sequence: `notFound` when the symbol is absent,
`outOfRange` when the index is 0 or exceeds the transaction count, and on
success exactly the transaction at that position is removed with the
asset left in place; a failed deletion changes nothing and persists
nothing. -/
theorem c5_delete_indexed (s : Store) (sym : String) (i : Nat) :
    (lookupAsset s.mem.portfolio.asset sym = none →
      Store.deleteOp s sym (some i) = (s, some .notFound)) ∧
    (∀ a, lookupAsset s.mem.portfolio.asset sym = some a →
      ((i = 0 ∨ a.op.length < i) →
        Store.deleteOp s sym (some i) = (s, some .outOfRange)) ∧
      (1 ≤ i → i ≤ a.op.length →
        ∃ d₂, s.mem.delete sym (some i) = .ok d₂ ∧
          Store.deleteOp s sym (some i) = ({ mem := d₂, disk := d₂ }, none) ∧
          lookupAsset d₂.portfolio.asset sym =
            some { a with op := a.op.take (i - 1) ++ a.op.drop i })) := by
  refine ⟨fun hnone => ?_, fun a ha => ⟨fun hbad => ?_, fun h1 h2 => ?_⟩⟩
  · unfold Store.deleteOp Data.delete
    simp only [hnone]
  · unfold Store.deleteOp Data.delete
    simp only [ha]
    rw [if_pos hbad]
  · have hcond : ¬(i = 0 ∨ a.op.length < i) := by omega
    have hdel : s.mem.delete sym (some i) =
        .ok { s.mem with portfolio := ⟨updateAsset s.mem.portfolio.asset sym
          (fun a => { a with op := a.op.eraseIdx (i - 1) })⟩ } := by
      unfold Data.delete
      simp only [ha]
      rw [if_neg hcond]
    refine ⟨_, hdel, ?_, ?_⟩
    · unfold Store.deleteOp
      rw [hdel]
    · show lookupAsset (updateAsset s.mem.portfolio.asset sym _) sym = _
      rw [lookupAsset_updateAsset_self, ha]
      simp only [Option.getD_some]
      have he : a.op.eraseIdx (i - 1) = a.op.take (i - 1) ++ a.op.drop i := by
        have hi : i - 1 + 1 = i := by omega
        rw [List.eraseIdx_eq_take_drop_succ, hi]
      rw [he]

/-- C5 witness: deleting the first of the two AAPL transactions
succeeds, persists, and leaves the tail of the list. -/
theorem c5_witness :
    ∃ d₂, storeA.mem.delete "AAPL" (some 1) = .ok d₂ ∧
      Store.deleteOp storeA "AAPL" (some 1) = ({ mem := d₂, disk := d₂ }, none) ∧
      lookupAsset d₂.portfolio.asset "AAPL" =
        some { assetA with op := assetA.op.take (1 - 1) ++ assetA.op.drop 1 } :=
  ((c5_delete_indexed storeA "AAPL" 1).2 assetA (by decide)).2
    (by decide) (by decide)

/-- C6: `Data::delete` without an index removes the whole asset when the
symbol is present (the entry disappears, so a subsequent
`Portfolio::performance` folds only over the remaining assets) and fails
with `notFound` when it is absent. -/
theorem c6_delete_whole_asset (s : Store) (sym : String)
    (f : FinanceProvider) :
    (lookupAsset s.mem.portfolio.asset sym = none →
      Store.deleteOp s sym none = (s, some .notFound)) ∧
    (∀ a, lookupAsset s.mem.portfolio.asset sym = some a →
      (s.mem.portfolio.asset.map Prod.fst).Nodup →
      ∃ d₂, s.mem.delete sym none = .ok d₂ ∧
        Store.deleteOp s sym none = ({ mem := d₂, disk := d₂ }, none) ∧
        lookupAsset d₂.portfolio.asset sym = none ∧
        d₂.portfolio.performance f =
          tryFoldAssets f Performance.default
            ((eraseAsset s.mem.portfolio.asset sym).map Prod.snd)) := by
  refine ⟨fun hnone => ?_, fun a ha hnd => ?_⟩
  · unfold Store.deleteOp Data.delete
    simp only [hnone]
  · have hdel : s.mem.delete sym none =
        .ok { s.mem with
          portfolio := ⟨eraseAsset s.mem.portfolio.asset sym⟩ } := by
      unfold Data.delete
      simp only [ha]
    refine ⟨_, hdel, ?_, ?_, rfl⟩
    · unfold Store.deleteOp
      rw [hdel]
    · exact lookupAsset_eraseAsset_self hnd

/-- C6 witness: deleting the MSFT asset (which holds a transaction)
removes its entry and the subsequent portfolio fold excludes it. -/
theorem c6_witness :
    ∃ d₂, storeA.mem.delete "MSFT" none = .ok d₂ ∧
      Store.deleteOp storeA "MSFT" none = ({ mem := d₂, disk := d₂ }, none) ∧
      lookupAsset d₂.portfolio.asset "MSFT" = none ∧
      d₂.portfolio.performance provA =
        tryFoldAssets provA Performance.default
          ((eraseAsset storeA.mem.portfolio.asset "MSFT").map Prod.snd) :=
  (c6_delete_whole_asset storeA "MSFT" provA).2 assetM (by decide) (by decide)

/-- C7: an `add` followed by `delete` at the new (1-based) transaction
count removes exactly the just-added transaction and restores the
symbol's transaction list. -/
theorem c7_add_then_delete (d : Data) (sym : String) (q : Nat) (p : ℚ)
    (dt : Int) :
    (d.add sym q p dt).opsOf sym =
      d.opsOf sym ++
        [{ symbol := sym, quantity := q, price := p, date := dt }] ∧
    ∃ d₂, (d.add sym q p dt).delete sym
        (some ((d.add sym q p dt).opsOf sym).length) = .ok d₂ ∧
      d₂.opsOf sym = d.opsOf sym := by
  set newOp : AssetOp :=
    { symbol := sym, quantity := q, price := p, date := dt } with hnew
  set a₀ := (lookupAsset d.portfolio.asset sym).getD Asset.default with ha₀
  set d₁ := d.add sym q p dt with hd₁
  have hmap : d₁.portfolio.asset =
      updateAsset d.portfolio.asset sym
        (fun a => { a with op := a.op ++ [newOp], symbol := sym }) := rfl
  have hlook : lookupAsset d₁.portfolio.asset sym =
      some { a₀ with op := a₀.op ++ [newOp], symbol := sym } := by
    rw [hmap, lookupAsset_updateAsset_self]
  have hops0 : d.opsOf sym = a₀.op := by
    unfold Data.opsOf
    rw [ha₀]
    cases hL : lookupAsset d.portfolio.asset sym <;> simp [Asset.default]
  have h1 : d₁.opsOf sym = a₀.op ++ [newOp] := by
    unfold Data.opsOf
    rw [hlook]
  have hlen : (d₁.opsOf sym).length = a₀.op.length + 1 := by
    rw [h1]
    simp
  have hdel : d₁.delete sym (some (a₀.op.length + 1)) =
      .ok { d₁ with portfolio := ⟨updateAsset d₁.portfolio.asset sym
        (fun a =>
          { a with op := a.op.eraseIdx (a₀.op.length + 1 - 1) })⟩ } := by
    unfold Data.delete
    simp only [hlook]
    rw [if_neg (by simp)]
  have hops2 : ({ d₁ with portfolio := ⟨updateAsset d₁.portfolio.asset sym
      (fun a => { a with op := a.op.eraseIdx (a₀.op.length + 1 - 1) })⟩ } :
        Data).opsOf sym = a₀.op := by
    unfold Data.opsOf
    simp only [lookupAsset_updateAsset_self, hlook, Option.getD_some]
    show (a₀.op ++ [newOp]).eraseIdx (a₀.op.length + 1 - 1) = a₀.op
    simp only [Nat.add_sub_cancel]
    exact eraseIdx_append_last a₀.op newOp
  refine ⟨by rw [h1, hops0], ?_⟩
  refine ⟨_, by rw [hlen]; exact hdel, by rw [hops0]; exact hops2⟩

/-- C10: `add` and `delete` touch only the map entry of the given
symbol: the api key and every other symbol's asset are unchanged on
success, and a failing delete changes nothing at all. -/
theorem c10_frame (d : Data) (sym sym' : String) (q : Nat) (p : ℚ)
    (dt : Int) (idx : Option Nat) (h : sym' ≠ sym) :
    (d.add sym q p dt).api_key = d.api_key ∧
    lookupAsset (d.add sym q p dt).portfolio.asset sym' =
      lookupAsset d.portfolio.asset sym' ∧
    (∀ d₂, d.delete sym idx = .ok d₂ →
      d₂.api_key = d.api_key ∧
      lookupAsset d₂.portfolio.asset sym' =
        lookupAsset d.portfolio.asset sym') ∧
    (∀ e dk, d.delete sym idx = .error e →
      Store.deleteOp { mem := d, disk := dk } sym idx =
        ({ mem := d, disk := dk }, some e)) := by
  refine ⟨rfl, lookupAsset_updateAsset_ne _ h, fun d₂ hd₂ => ?_,
    fun e dk he => ?_⟩
  · cases idx with
    | none =>
      unfold Data.delete at hd₂
      cases hL : lookupAsset d.portfolio.asset sym with
      | none => simp only [hL] at hd₂; exact absurd hd₂ (by simp)
      | some a =>
        simp only [hL, Except.ok.injEq] at hd₂
        subst hd₂
        exact ⟨rfl, lookupAsset_eraseAsset_ne h⟩
    | some i =>
      unfold Data.delete at hd₂
      cases hL : lookupAsset d.portfolio.asset sym with
      | none => simp only [hL] at hd₂; exact absurd hd₂ (by simp)
      | some a =>
        simp only [hL] at hd₂
        by_cases hc : i = 0 ∨ a.op.length < i
        · rw [if_pos hc] at hd₂; simp at hd₂
        · rw [if_neg hc] at hd₂
          simp only [Except.ok.injEq] at hd₂
          subst hd₂
          exact ⟨rfl, lookupAsset_updateAsset_ne _ h⟩
  · unfold Store.deleteOp
    rw [he]

/-- C10 witness: adding to AAPL leaves the MSFT entry and the api key
unchanged. -/
theorem c10_witness :
    (dataA.add "AAPL" 1 10 5).api_key = dataA.api_key ∧
    lookupAsset (dataA.add "AAPL" 1 10 5).portfolio.asset "MSFT" =
      lookupAsset dataA.portfolio.asset "MSFT" :=
  ⟨(c10_frame dataA "AAPL" "MSFT" 1 10 5 none (by decide)).1,
   (c10_frame dataA "AAPL" "MSFT" 1 10 5 none (by decide)).2.1⟩

/-- C8: a provider built from an empty api key fails every lookup with
`keyNotSet` and attempts zero external calls. -/
theorem c8_empty_key_no_external_call (service : FinanceapiConnector)
    (sym : String) :
    (FinanceProvider.new service "").get_latest_price sym =
      (.error .keyNotSet, 0) ∧
    (FinanceProvider.new service "").get_quote sym =
      (.error .keyNotSet, 0) ∧
    (FinanceProvider.new service "").search sym =
      (.error .keyNotSet, 0) :=
  ⟨rfl, rfl, rfl⟩

/-- C9: when the invested value is zero, the unguarded division behind
`gain_perc` yields a non-finite value, both in `Performance::new` and in
the `Add` combine; no error is raised in either case. -/
theorem c9_zero_invested_gain_perc_nonfinite (q : Nat) (b c : ℚ)
    (x y : Performance) (hq : (q : ℚ) * b = 0)
    (hx : x.invested_value = 0) (hy : y.invested_value = 0) :
    (Performance.new q b c).gain_perc.isFinite = false ∧
    ((x.add y).gain_perc).isFinite = false := by
  constructor
  · have hg : (Performance.new q b c).gain_perc =
        gainPerc ((q : ℚ) * c - (q : ℚ) * b) ((q : ℚ) * b) := rfl
    rw [hg, hq]
    exact gainPerc_zero_invested _
  · rw [Performance.add_gain_perc, hx, hy]
    rw [show (0 : ℚ) + 0 = 0 by norm_num]
    exact gainPerc_zero_invested _

/-- C9 witness: a zero-quantity purchase and a combine of two
zero-invested records. -/
theorem c9_witness :
    (Performance.new 0 1 2).gain_perc.isFinite = false ∧
    (((Performance.new 0 1 2).add (Performance.new 3 0 5)).gain_perc).isFinite
      = false :=
  c9_zero_invested_gain_perc_nonfinite 0 1 2 (Performance.new 0 1 2)
    (Performance.new 3 0 5) (by norm_num)
    (by norm_num [Performance.new]) (by norm_num [Performance.new])

end RFinance
